import Mathlib

/-!
# Verification of the Unified Memory Graph (CasualMemoryAgent backend)

Shallow embedding of the graph memory core:
* `app/models/graph.py` — node/edge data model and the edge-type validity matrix,
* `app/services/database.py` — `DatabaseService`: node/edge CRUD, edge validation,
  the DFS cycle check `_has_path`, traversal queries,
* `app/services/memory_graph.py` — `MemoryGraph`: updates with embedding refresh,
  execution context, search/rerank pipeline, statistics.

Store state is modelled as the pair of the two LanceDB tables (`nodes`, `edges`)
as lists of decoded records, in insertion order: `add` appends, `delete(pred)`
filters, `search().where(pred).limit(1)` is `find?`.  Timestamps are opaque
`Nat`s, the metadata bag is kept as its serialized opaque string, and embedding
vectors are opaque `List Int` (no component arithmetic ever happens in the
core).  The embedding / rerank capability and the record store's
vector-similarity ranking are external collaborators and enter as explicit
function parameters.
-/

namespace MemoryAgent

/-- `NodeType` enum (`graph.py`). -/
inductive NodeType : Type
  | event
  | note
deriving DecidableEq, Repr

/-- `EventStatus` enum (`graph.py`). -/
inductive EventStatus : Type
  | pending
  | in_progress
  | done
  | archived
deriving DecidableEq, Repr

/-- `EdgeType` enum (`graph.py`). -/
inductive EdgeType : Type
  | depends_on
  | part_of
  | references
  | produces
deriving DecidableEq, Repr

/-- Opaque embedding vector (source: `list[float]`; the core never computes on
components, so the scalar type is irrelevant). -/
abbrev Emb := List Int

/-- `Event` node variant (`graph.py`): base `GraphNode` fields plus
status / due date / priority. -/
structure Event where
  id : String
  content : String
  created_at : Nat
  updated_at : Nat
  metadata : String
  embedding : Option Emb
  status : EventStatus
  due_date : Option Nat
  priority : Int
deriving DecidableEq, Repr

/-- `Note` node variant (`graph.py`): base `GraphNode` fields plus
title / tags / source. -/
structure Note where
  id : String
  content : String
  created_at : Nat
  updated_at : Nat
  metadata : String
  embedding : Option Emb
  title : String
  tags : List String
  source : Option String
deriving DecidableEq, Repr

/-- A stored node record, as decoded by `DatabaseService._record_to_node`:
the `type` discriminant sends every record to exactly one of the two
variants. -/
inductive GraphNode : Type
  | event (e : Event)
  | note (n : Note)
deriving DecidableEq, Repr

/-- `GraphNode.id`. -/
def GraphNode.id : GraphNode → String
  | .event e => e.id
  | .note n => n.id

/-- `GraphNode.content`. -/
def GraphNode.content : GraphNode → String
  | .event e => e.content
  | .note n => n.content

/-- `GraphNode.type` discriminant. -/
def GraphNode.type : GraphNode → NodeType
  | .event _ => .event
  | .note _ => .note

/-- `Edge` (`graph.py`). -/
structure Edge where
  source_id : String
  target_id : String
  edge_type : EdgeType
  created_at : Nat
deriving DecidableEq, Repr

/-- `VALID_EDGE_TYPES` (`graph.py`): the §3 edge-type validity matrix.  The
Python dict contains all four kind pairs, so `.get(key, [])` is total. -/
def VALID_EDGE_TYPES : NodeType × NodeType → List EdgeType
  | (.event, .event) => [.depends_on, .part_of]
  | (.note, .note) => [.references]
  | (.event, .note) => [.references, .produces]
  | (.note, .event) => [.references, .produces]

/-- Error kinds raised by `DatabaseService.add_edge` (`database.py`):
`ValueError` for a missing endpoint, `InvalidEdgeTypeError`,
`CyclicDependencyError`. -/
inductive EdgeErr : Type
  | notFound
  | invalidEdgeType
  | cyclicDependency
deriving DecidableEq, Repr

/-- The store state: the `nodes` and `edges` LanceDB tables, in insertion
order. -/
structure DB where
  nodes : List GraphNode
  edges : List Edge
deriving DecidableEq, Repr

namespace DB

/-- `DatabaseService.get_node`: first record with the given id
(`search().where(id = …).limit(1)`). -/
def get_node (db : DB) (node_id : String) : Option GraphNode :=
  db.nodes.find? (fun n => n.id = node_id)

/-- `DatabaseService.add_node`: one record write (append). -/
def add_node (db : DB) (node : GraphNode) : DB :=
  { db with nodes := db.nodes ++ [node] }

/-- `DatabaseService.delete_node`: deletes every edge where the id is source
or target, then the node record itself.  Total — an absent id is not an
error. -/
def delete_node (db : DB) (node_id : String) : DB :=
  { nodes := db.nodes.filter (fun n => ¬ n.id = node_id),
    edges := db.edges.filter
      (fun e => ¬ (e.source_id = node_id ∨ e.target_id = node_id)) }

/-- Stamp a node's `updated_at` (the `node.updated_at = datetime.now()` line of
`update_node`). -/
def setUpdatedAt (node : GraphNode) (now : Nat) : GraphNode :=
  match node with
  | .event e => .event { e with updated_at := now }
  | .note n => .note { n with updated_at := now }

/-- `DatabaseService.update_node`: stamps the update time, then — LanceDB has
no in-place update — `delete_node` followed by `add_node`.  (Note the cascade:
`delete_node` also removes the node's incident edges.) -/
def update_node (db : DB) (node : GraphNode) (now : Nat) : DB :=
  (db.delete_node node.id).add_node (setUpdatedAt node now)

/-- `DatabaseService.get_all_nodes`: full scan, optionally filtered by type. -/
def get_all_nodes (db : DB) (node_type : Option NodeType) : List GraphNode :=
  match node_type with
  | some t => db.nodes.filter (fun n => n.type = t)
  | none => db.nodes

/-- Python truthiness of an optional-string filter argument: `if source_id:`
is false both for `None` and for the empty string. -/
def strTruthy : Option String → Bool
  | none => false
  | some s => ¬ s = ""

/-- `DatabaseService.get_edges`: conjunctive filter scan.  A condition is added
only for a *truthy* argument (`if source_id: …`), and with no conditions at all
the whole table is returned (`to_pandas()` branch). -/
def get_edges (db : DB) (source_id target_id : Option String)
    (edge_type : Option EdgeType) : List Edge :=
  if strTruthy source_id ∨ strTruthy target_id ∨ edge_type.isSome then
    db.edges.filter (fun e =>
      (if strTruthy source_id then some e.source_id = source_id else true) &&
      (if strTruthy target_id then some e.target_id = target_id else true) &&
      (match edge_type with
       | some t => e.edge_type = t
       | none => true))
  else
    db.edges

/-- `DatabaseService.delete_edge`: exact-key delete, total (idempotent). -/
def delete_edge (db : DB) (source_id target_id : String) (edge_type : EdgeType) :
    DB :=
  { db with edges := db.edges.filter (fun e =>
      ¬ (e.source_id = source_id ∧ e.target_id = target_id ∧
         e.edge_type = edge_type)) }

end DB

/-- The per-iteration edge query of `_has_path`: targets of the outgoing edges
of `node_id` that carry the given type
(`where(source_id = current AND edge_type = …)`). -/
def outTargets (edges : List Edge) (edge_type : EdgeType) (node_id : String) :
    List String :=
  (edges.filter (fun e => e.source_id = node_id ∧ e.edge_type = edge_type)).map
    Edge.target_id

/-- The `while stack:` loop of `DatabaseService._has_path`, fuel-indexed so the
body is a literal transcription; `none` means the fuel ran out (the
sufficiency of the fuel chosen by `DB.hasPath` is proved below).  The Python
stack pushes and pops at the list's end; here the top of the stack is the
*head*, so pushing the successor list and then popping it element by element
appends its *reverse* at the head.  `visited` is the Python set. -/
def hasPathLoop (edges : List Edge) (edge_type : EdgeType) (to_id : String) :
    Nat → List String → Finset String → Option Bool
  | 0, _, _ => none
  | _ + 1, [], _ => some false
  | fuel + 1, current :: rest, visited =>
    if current = to_id then some true
    else if current ∈ visited then hasPathLoop edges edge_type to_id fuel rest visited
    else
      hasPathLoop edges edge_type to_id fuel
        ((outTargets edges edge_type current).reverse ++ rest)
        (insert current visited)

/-- Fuel bound for the `_has_path` loop: every iteration either pops the stack
or moves a fresh id (drawn from the stack or from the edge targets) into
`visited`, and each such move pushes at most `edges.length` successors — so
the iteration count is bounded by this measure. -/
def hasPathFuel (edges : List Edge) (stack : List String)
    (visited : Finset String) : Nat :=
  stack.length +
    ((stack.toFinset ∪ (edges.map Edge.target_id).toFinset) \ visited).card *
      (edges.length + 1) + 1

/-- `DatabaseService._has_path(from_id, to_id, edge_type)`: returns `false`
outright on an empty edge table, otherwise runs the DFS loop from
`[from_id]` with an empty visited set. -/
def DB.hasPath (db : DB) (from_id to_id : String) (edge_type : EdgeType) : Bool :=
  if db.edges.isEmpty then false
  else
    (hasPathLoop db.edges edge_type to_id
        (hasPathFuel db.edges [from_id] ∅) [from_id] ∅).getD false

/-- `DatabaseService._validate_edge` as a predicate: the edge type is a member
of the matrix row for the endpoint kinds. -/
def validEdge (source target : GraphNode) (edge_type : EdgeType) : Bool :=
  edge_type ∈ VALID_EDGE_TYPES (source.type, target.type)

/-- `DatabaseService.add_edge`: endpoint lookup (`ValueError` on a missing
one), `_validate_edge` (`InvalidEdgeTypeError`), then for DEPENDS_ON edges the
`_has_path(target, source)` cycle check (`CyclicDependencyError`); only then
is the record appended. -/
def DB.add_edge (db : DB) (edge : Edge) : Except EdgeErr DB :=
  match db.get_node edge.source_id with
  | none => .error .notFound
  | some source =>
    match db.get_node edge.target_id with
    | none => .error .notFound
    | some target =>
      if ¬ validEdge source target edge.edge_type then .error .invalidEdgeType
      else if edge.edge_type = .depends_on ∧
          db.hasPath edge.target_id edge.source_id .depends_on then
        .error .cyclicDependency
      else .ok { db with edges := db.edges ++ [edge] }

/-- `DatabaseService.get_neighbors`: collect target ids of matching outgoing
edges and/or source ids of matching incoming edges into a set (modelled as
deduplication — the claims below only consume membership and emptiness, never
the unspecified set-iteration order), then resolve each id, silently dropping
any that no longer resolves. -/
def DB.get_neighbors (db : DB) (node_id : String) (edge_type : Option EdgeType)
    (direction : String) : List GraphNode :=
  let outgoing :=
    if direction = "outgoing" ∨ direction = "both" then
      (db.get_edges (some node_id) none edge_type).map Edge.target_id
    else []
  let incoming :=
    if direction = "incoming" ∨ direction = "both" then
      (db.get_edges none (some node_id) edge_type).map Edge.source_id
    else []
  let neighbor_ids := (outgoing ++ incoming).dedup
  neighbor_ids.filterMap db.get_node

/-- `DatabaseService.get_predecessors`: incoming neighbors. -/
def DB.get_predecessors (db : DB) (node_id : String)
    (edge_type : Option EdgeType) : List GraphNode :=
  db.get_neighbors node_id edge_type "incoming"

/-- `DatabaseService.get_successors`: outgoing neighbors. -/
def DB.get_successors (db : DB) (node_id : String)
    (edge_type : Option EdgeType) : List GraphNode :=
  db.get_neighbors node_id edge_type "outgoing"

/-! ## MemoryGraph orchestrator (`memory_graph.py`)

The orchestrator's only collaborators besides the store are the embedding /
rerank capability and the record store's vector ranking; those enter as
explicit function parameters (`embed`, `rerank_fn`, `search_by_vector`).
Methods that mutate return the new store state alongside the Python return
value. -/

/-- `EventUpdate` request (`graph.py`): every field optional, `None` meaning
"not supplied" (the code tests `is not None`). -/
structure EventUpdate where
  content : Option String
  metadata : Option String
  status : Option EventStatus
  due_date : Option Nat
  priority : Option Int
deriving DecidableEq, Repr

/-- `NoteUpdate` request (`graph.py`). -/
structure NoteUpdate where
  content : Option String
  metadata : Option String
  title : Option String
  tags : Option (List String)
  source : Option String
deriving DecidableEq, Repr

/-- `MemoryGraph.get_event`: `get_node` plus an `isinstance(Event)` check. -/
def MemoryGraph.get_event (db : DB) (event_id : String) : Option Event :=
  match db.get_node event_id with
  | some (.event e) => some e
  | _ => none

/-- `MemoryGraph.get_note`: `get_node` plus an `isinstance(Note)` check. -/
def MemoryGraph.get_note (db : DB) (note_id : String) : Option Note :=
  match db.get_node note_id with
  | some (.note n) => some n
  | _ => none

/-- `MemoryGraph.update_event`: look up the node (returning `None` on a miss
*or* a kind mismatch), overwrite each supplied field in turn — regenerating
the embedding whenever `content` is supplied — then `update_node`.  Returns
the Python return value paired with the new store state. -/
def MemoryGraph.update_event (db : DB) (embed : String → Emb) (now : Nat)
    (event_id : String) (data : EventUpdate) : Option Event × DB :=
  match db.get_node event_id with
  | some (.event event) =>
    let event := match data.content with
      | some c => { event with content := c, embedding := some (embed c) }
      | none => event
    let event := match data.metadata with
      | some m => { event with metadata := m }
      | none => event
    let event := match data.status with
      | some s => { event with status := s }
      | none => event
    let event := match data.due_date with
      | some d => { event with due_date := some d }
      | none => event
    let event := match data.priority with
      | some p => { event with priority := p }
      | none => event
    (some { event with updated_at := now }, db.update_node (.event event) now)
  | _ => (none, db)

/-- The note-embedding text: `f"{title}\n{content}" if note.title else
content` (`title` truthiness = non-emptiness). -/
def noteEmbeddingText (title content : String) : String :=
  if ¬ title = "" then title ++ "\n" ++ content else content

/-- `MemoryGraph.update_note`: as `update_event`, but the embedding is
regenerated (from the final title/content) whenever `content` *or* `title`
was supplied. -/
def MemoryGraph.update_note (db : DB) (embed : String → Emb) (now : Nat)
    (note_id : String) (data : NoteUpdate) : Option Note × DB :=
  match db.get_node note_id with
  | some (.note note) =>
    let content_changed := data.content.isSome || data.title.isSome
    let note := match data.content with
      | some c => { note with content := c }
      | none => note
    let note := match data.metadata with
      | some m => { note with metadata := m }
      | none => note
    let note := match data.title with
      | some t => { note with title := t }
      | none => note
    let note := match data.tags with
      | some t => { note with tags := t }
      | none => note
    let note := match data.source with
      | some s => { note with source := some s }
      | none => note
    let note :=
      if content_changed then
        { note with embedding := some (embed (noteEmbeddingText note.title note.content)) }
      else note
    (some { note with updated_at := now }, db.update_node (.note note) now)
  | _ => (none, db)

/-- `MemoryGraph.get_node_edges`: outgoing and/or incoming edges of a node. -/
def MemoryGraph.get_node_edges (db : DB) (node_id : String)
    (edge_type : Option EdgeType) (direction : String) : List Edge :=
  (if direction = "outgoing" ∨ direction = "both" then
     db.get_edges (some node_id) none edge_type
   else []) ++
  (if direction = "incoming" ∨ direction = "both" then
     db.get_edges none (some node_id) edge_type
   else [])

/-- The dict returned by `MemoryGraph.get_event_execution_context`. -/
structure ExecutionContext where
  event : Event
  blocking_dependencies : List Event
  context_notes : List Note
  subtasks : List Event
  can_execute : Bool
deriving DecidableEq, Repr

/-- `MemoryGraph.get_event_execution_context`: blocking DEPENDS_ON
predecessors that are Events with status ≠ DONE, REFERENCES successors that
are Notes, PART_OF predecessors that are Events, and
`can_execute = (len(blocking) == 0)`. -/
def MemoryGraph.get_event_execution_context (db : DB) (event_id : String) :
    Option ExecutionContext :=
  match MemoryGraph.get_event db event_id with
  | none => none
  | some event =>
    let blockers := db.get_predecessors event_id (some .depends_on)
    let blocking := blockers.filterMap (fun n =>
      match n with
      | .event e => if ¬ e.status = .done then some e else none
      | .note _ => none)
    let references := db.get_successors event_id (some .references)
    let context_notes := references.filterMap (fun n =>
      match n with
      | .note m => some m
      | .event _ => none)
    let subtasks := db.get_predecessors event_id (some .part_of)
    let sub_events := subtasks.filterMap (fun n =>
      match n with
      | .event e => some e
      | .note _ => none)
    some { event := event,
           blocking_dependencies := blocking,
           context_notes := context_notes,
           subtasks := sub_events,
           can_execute := blocking.length = 0 }

/-- One entry of the rerank capability's response as consumed by `search`
(`item["index"]`; the accompanying document text and relevance score are never
read). -/
structure RerankItem where
  index : Nat
deriving DecidableEq, Repr

/-- `MemoryGraph.search`: embed the query, over-fetch `limit * 2` candidates
by vector distance (`search_by_vector` is the record-store adapter's ranking,
an external collaborator, hence a parameter), then either rerank — keeping,
in the reranker's order, each returned index that is in bounds — or take the
first `limit` candidates. -/
def MemoryGraph.search (embed : String → Emb)
    (search_by_vector : Emb → Nat → Option NodeType → List (GraphNode × Int))
    (rerank_fn : String → List String → Nat → List RerankItem)
    (query : String) (limit : Nat) (node_type : Option NodeType)
    (rerank : Bool) : List GraphNode :=
  let query_embedding := embed query
  let results := search_by_vector query_embedding (limit * 2) node_type
  if results.isEmpty then []
  else
    let nodes := results.map Prod.fst
    if rerank ∧ nodes.length > 1 then
      let documents := nodes.map GraphNode.content
      let reranked := rerank_fn query documents limit
      reranked.foldl (fun reranked_nodes item =>
        if h : item.index < nodes.length then reranked_nodes ++ [nodes[item.index]]
        else reranked_nodes) []
    else
      nodes.take limit

/-- One `dict.get(key, 0) + 1` update of a Python counting dict, modelled as
an association list in key-insertion order. -/
def countInc {α : Type} [DecidableEq α] : List (α × Nat) → α → List (α × Nat)
  | [], k => [(k, 1)]
  | (k', v) :: rest, k =>
    if k' = k then (k', v + 1) :: rest else (k', v) :: countInc rest k

/-- The dict returned by `MemoryGraph.get_stats`. -/
structure Stats where
  total_nodes : Nat
  total_events : Nat
  total_notes : Nat
  total_edges : Nat
  event_status_counts : List (EventStatus × Nat)
  edge_type_counts : List (EdgeType × Nat)
deriving DecidableEq, Repr

/-- `MemoryGraph.get_stats`: scans all nodes and edges, splits nodes by
`isinstance`, and builds the two counting dicts. -/
def MemoryGraph.get_stats (db : DB) : Stats :=
  let all_nodes := db.get_all_nodes none
  let all_edges := db.get_edges none none none
  let events := all_nodes.filterMap (fun n =>
    match n with
    | .event e => some e
    | .note _ => none)
  let notes := all_nodes.filterMap (fun n =>
    match n with
    | .note m => some m
    | .event _ => none)
  let event_status_counts :=
    events.foldl (fun counts e => countInc counts e.status) []
  let edge_type_counts :=
    all_edges.foldl (fun counts e => countInc counts e.edge_type) []
  { total_nodes := all_nodes.length,
    total_events := events.length,
    total_notes := notes.length,
    total_edges := all_edges.length,
    event_status_counts := event_status_counts,
    edge_type_counts := edge_type_counts }

/-! ## Reachability along one edge type, and correctness of `_has_path` -/

/-- `Reaches edges t a b`: `b` is reachable from `a` following out-edges of
type `t` (reflexive-transitive closure of the out-edge relation the DFS
explores). -/
inductive Reaches (edges : List Edge) (edge_type : EdgeType) :
    String → String → Prop
  | refl (a : String) : Reaches edges edge_type a a
  | step {a b c : String} (hab : b ∈ outTargets edges edge_type a)
      (hbc : Reaches edges edge_type b c) : Reaches edges edge_type a c

/-- Loop invariant of the DFS: every visited vertex differs from the target
and all of its successors have been visited or are pending on the stack. -/
def ClosedInv (edges : List Edge) (edge_type : EdgeType) (to_id : String)
    (stack : List String) (visited : Finset String) : Prop :=
  ∀ v ∈ visited, v ≠ to_id ∧
    ∀ t ∈ outTargets edges edge_type v, t ∈ visited ∨ t ∈ stack

/-- Sum of the values of a counting dict (used to state the aggregation
claims about `get_stats`). -/
def sumValues {α : Type} (m : List (α × Nat)) : Nat :=
  (m.map Prod.snd).sum

/-! ### Concrete sample data

Small concrete store states used by the witness and counterexample
theorems: two events `A`, `B`, a note `N`, a DEPENDS_ON edge `A → B`, and a
few stores assembled from them. -/

/-- Sample event `A` (status PENDING). -/
def eventA : Event :=
  { id := "A", content := "task a", created_at := 0, updated_at := 0,
    metadata := "", embedding := none, status := .pending, due_date := none,
    priority := 0 }

/-- Sample event `B` (status PENDING). -/
def eventB : Event :=
  { eventA with id := "B", content := "task b" }

/-- Sample note `N`. -/
def noteN : Note :=
  { id := "N", content := "note n", created_at := 0, updated_at := 0,
    metadata := "", embedding := none, title := "", tags := [], source := none }

/-- Sample DEPENDS_ON edge `A → B`. -/
def edgeAB : Edge :=
  { source_id := "A", target_id := "B", edge_type := .depends_on,
    created_at := 0 }

/-- Store holding events `A`, `B` and the edge `A DEPENDS_ON B` (the state the
spec's execution-context scenario describes). -/
def scenarioDB : DB :=
  { nodes := [.event eventA, .event eventB], edges := [edgeAB] }

/-- `scenarioDB` after `update_event` sets `A`'s status to DONE (update time
`1`, any embedding function). -/
def scenarioDB2 : DB :=
  (MemoryGraph.update_event scenarioDB (fun _ => []) 1 "A"
    { content := none, metadata := none, status := some .done,
      due_date := none, priority := none }).2

/-- Store that also holds an event whose id is the empty string (exercising
the Python truthiness of empty-string filter arguments). -/
def emptyIdDB : DB :=
  { nodes := [.event { eventA with id := "" }, .event eventA, .event eventB],
    edges := [edgeAB] }

/-- A DEPENDS_ON self-loop on `A`. -/
def selfLoopEdge : Edge :=
  { source_id := "A", target_id := "A", edge_type := .depends_on,
    created_at := 0 }

/-- Store holding the single event `A` and no edges. -/
def singleEventDB : DB :=
  { nodes := [.event eventA], edges := [] }

/-- Store holding event `A` (content `x`, no embedding yet) only — the input
of the `update_event` frame counterexample. -/
def staleDB : DB :=
  { nodes := [.event { eventA with content := "x" }], edges := [] }

/-- An `EventUpdate` that re-supplies the identical content `x` and nothing
else. -/
def resupplyUpdate : EventUpdate :=
  { content := some "x", metadata := none, status := none, due_date := none,
    priority := none }

/-- A REFERENCES edge from event `A` to note `N`. -/
def refEdgeAN : Edge :=
  { source_id := "A", target_id := "N", edge_type := .references,
    created_at := 0 }

/-- Store holding event `A` and note `N`, no edges. -/
def eventNoteDB : DB :=
  { nodes := [.event eventA, .note noteN], edges := [] }

/-- The store `singleEventDB` after the DEPENDS_ON self-loop has been
persisted. -/
def selfLoopDB : DB :=
  { nodes := [.event eventA], edges := [selfLoopEdge] }

/-- Store holding event `A` and the (dangling-endpoint) edge `A → B`: a store
whose edge table is nonempty. -/
def oneEdgeDB : DB :=
  { nodes := [.event eventA], edges := [edgeAB] }

/-- A PART_OF self-loop on `A`. -/
def partOfLoopEdge : Edge :=
  { source_id := "A", target_id := "A", edge_type := .part_of,
    created_at := 0 }

/-- A DEPENDS_ON edge `B → A` (the reverse of `edgeAB`). -/
def edgeBA : Edge :=
  { source_id := "B", target_id := "A", edge_type := .depends_on,
    created_at := 0 }

/-- Field-by-field description of what `update_event` does to the stored
event, used to state the frame property: each supplied field is overwritten
and each unsupplied one kept, except that `updated_at` is always refreshed
and the embedding is regenerated whenever `content` is supplied. -/
def applyEventUpdate (ev : Event) (embed : String → Emb) (now : Nat)
    (data : EventUpdate) : Event :=
  { id := ev.id,
    content := data.content.getD ev.content,
    created_at := ev.created_at,
    updated_at := now,
    metadata := data.metadata.getD ev.metadata,
    embedding := match data.content with
      | some c => some (embed c)
      | none => ev.embedding,
    status := data.status.getD ev.status,
    due_date := match data.due_date with
      | some d => some d
      | none => ev.due_date,
    priority := data.priority.getD ev.priority }

/-- Field-by-field description of what `update_note` does to the stored note:
each supplied field overwritten, `updated_at` refreshed, and the embedding
regenerated from the final title/content whenever `content` or `title` is
supplied. -/
def applyNoteUpdate (nt : Note) (embed : String → Emb) (now : Nat)
    (data : NoteUpdate) : Note :=
  { id := nt.id,
    content := data.content.getD nt.content,
    created_at := nt.created_at,
    updated_at := now,
    metadata := data.metadata.getD nt.metadata,
    embedding :=
      if data.content.isSome || data.title.isSome then
        some (embed (noteEmbeddingText (data.title.getD nt.title)
          (data.content.getD nt.content)))
      else nt.embedding,
    title := data.title.getD nt.title,
    tags := data.tags.getD nt.tags,
    source := match data.source with
      | some s => some s
      | none => nt.source }

theorem mem_targets_of_mem_outTargets {edges : List Edge} {edge_type : EdgeType}
    {a x : String} (h : x ∈ outTargets edges edge_type a) :
    x ∈ edges.map Edge.target_id := by
  unfold outTargets at h
  obtain ⟨e, he, rfl⟩ := List.mem_map.mp h
  exact List.mem_map.mpr ⟨e, List.mem_of_mem_filter he, rfl⟩

theorem length_outTargets_le (edges : List Edge) (edge_type : EdgeType)
    (a : String) : (outTargets edges edge_type a).length ≤ edges.length := by
  unfold outTargets
  rw [List.length_map]
  exact List.length_filter_le _ _

/-- If the DFS loop answers `true`, the target is reachable from some stack
element. -/
theorem hasPathLoop_sound (edges : List Edge) (edge_type : EdgeType)
    (to_id : String) :
    ∀ (fuel : Nat) (stack : List String) (visited : Finset String),
      hasPathLoop edges edge_type to_id fuel stack visited = some true →
      ∃ s ∈ stack, Reaches edges edge_type s to_id := by
  intro fuel
  induction fuel with
  | zero => intro stack visited h; simp [hasPathLoop] at h
  | succ fuel ih =>
    intro stack visited h
    cases stack with
    | nil => simp [hasPathLoop] at h
    | cons current rest =>
      rw [hasPathLoop] at h
      by_cases hto : current = to_id
      · exact ⟨current, List.mem_cons_self _ _, hto ▸ Reaches.refl current⟩
      · rw [if_neg hto] at h
        by_cases hvis : current ∈ visited
        · rw [if_pos hvis] at h
          obtain ⟨s, hs, hr⟩ := ih rest visited h
          exact ⟨s, List.mem_cons_of_mem _ hs, hr⟩
        · rw [if_neg hvis] at h
          obtain ⟨s, hs, hr⟩ := ih _ _ h
          rcases List.mem_append.mp hs with h1 | h2
          · exact ⟨current, List.mem_cons_self _ _,
              Reaches.step (List.mem_reverse.mp h1) hr⟩
          · exact ⟨s, List.mem_cons_of_mem _ h2, hr⟩

/-- A set that avoids the target and is closed under the out-edge relation
contains no vertex from which the target is reachable. -/
theorem not_reaches_of_closed (edges : List Edge) (edge_type : EdgeType) :
    ∀ s t : String, Reaches edges edge_type s t →
      ∀ V : Finset String,
        (∀ v ∈ V, v ≠ t ∧ ∀ u ∈ outTargets edges edge_type v, u ∈ V) →
        s ∈ V → False := by
  intro s t hr
  induction hr with
  | refl a => intro V hV ha; exact (hV a ha).1 rfl
  | step hab _ ih => intro V hV ha; exact ih V hV ((hV _ ha).2 _ hab)

/-- If the DFS loop answers `false` (starting from a state satisfying the
invariant), the target is unreachable from every stack or visited element. -/
theorem hasPathLoop_complete (edges : List Edge) (edge_type : EdgeType)
    (to_id : String) :
    ∀ (fuel : Nat) (stack : List String) (visited : Finset String),
      ClosedInv edges edge_type to_id stack visited →
      hasPathLoop edges edge_type to_id fuel stack visited = some false →
      ∀ s, s ∈ stack ∨ s ∈ visited → ¬ Reaches edges edge_type s to_id := by
  intro fuel
  induction fuel with
  | zero => intro stack visited _ h; simp [hasPathLoop] at h
  | succ fuel ih =>
    intro stack visited hinv h
    cases stack with
    | nil =>
      intro s hs hr
      rcases hs with hs | hs
      · simp at hs
      · have hV : ∀ v ∈ visited, v ≠ to_id ∧
            ∀ u ∈ outTargets edges edge_type v, u ∈ visited := by
          intro v hv
          refine ⟨(hinv v hv).1, fun u hu => ?_⟩
          rcases (hinv v hv).2 u hu with h1 | h1
          · exact h1
          · simp at h1
        exact not_reaches_of_closed edges edge_type s to_id hr visited hV hs
    | cons current rest =>
      rw [hasPathLoop] at h
      by_cases hto : current = to_id
      · rw [if_pos hto] at h; simp at h
      · rw [if_neg hto] at h
        by_cases hvis : current ∈ visited
        · rw [if_pos hvis] at h
          have hinv' : ClosedInv edges edge_type to_id rest visited := by
            intro v hv
            refine ⟨(hinv v hv).1, fun t ht => ?_⟩
            rcases (hinv v hv).2 t ht with h1 | h1
            · exact Or.inl h1
            · rcases List.mem_cons.mp h1 with rfl | h2
              · exact Or.inl hvis
              · exact Or.inr h2
          intro s hs
          refine ih rest visited hinv' h s ?_
          rcases hs with hs | hs
          · rcases List.mem_cons.mp hs with rfl | h2
            · exact Or.inr hvis
            · exact Or.inl h2
          · exact Or.inr hs
        · rw [if_neg hvis] at h
          have hinv' : ClosedInv edges edge_type to_id
              ((outTargets edges edge_type current).reverse ++ rest)
              (insert current visited) := by
            intro v hv
            rcases Finset.mem_insert.mp hv with rfl | hv'
            · exact ⟨hto, fun t ht =>
                Or.inr (List.mem_append.mpr (Or.inl (List.mem_reverse.mpr ht)))⟩
            · refine ⟨(hinv v hv').1, fun t ht => ?_⟩
              rcases (hinv v hv').2 t ht with h1 | h1
              · exact Or.inl (Finset.mem_insert_of_mem h1)
              · rcases List.mem_cons.mp h1 with rfl | h2
                · exact Or.inl (Finset.mem_insert_self _ _)
                · exact Or.inr (List.mem_append.mpr (Or.inr h2))
          intro s hs
          refine ih _ _ hinv' h s ?_
          rcases hs with hs | hs
          · rcases List.mem_cons.mp hs with rfl | h2
            · exact Or.inr (Finset.mem_insert_self _ _)
            · exact Or.inl (List.mem_append.mpr (Or.inr h2))
          · exact Or.inr (Finset.mem_insert_of_mem hs)

/-- The fuel bound `hasPathFuel` really bounds the iteration count: with that
much fuel the loop always delivers an answer (this is the claim that the
visited set's growth, bounded by the number of distinct node ids, forces
termination). -/
theorem hasPathLoop_isSome (edges : List Edge) (edge_type : EdgeType)
    (to_id : String) :
    ∀ (fuel : Nat) (stack : List String) (visited : Finset String),
      hasPathFuel edges stack visited ≤ fuel →
      (hasPathLoop edges edge_type to_id fuel stack visited).isSome := by
  intro fuel
  induction fuel with
  | zero =>
    intro stack visited hle
    exact absurd hle (by simp [hasPathFuel])
  | succ fuel ih =>
    intro stack visited hle
    cases stack with
    | nil => simp [hasPathLoop]
    | cons current rest =>
      rw [hasPathLoop]
      by_cases hto : current = to_id
      · simp [hto]
      · rw [if_neg hto]
        by_cases hvis : current ∈ visited
        · rw [if_pos hvis]
          refine ih rest visited ?_
          have hcard : (((rest.toFinset : Finset String) ∪
                (edges.map Edge.target_id).toFinset) \ visited).card ≤
              ((((current :: rest).toFinset : Finset String) ∪
                (edges.map Edge.target_id).toFinset) \ visited).card := by
            refine Finset.card_le_card ?_
            intro x hx
            simp only [Finset.mem_sdiff, Finset.mem_union, List.mem_toFinset,
              List.toFinset_cons, Finset.mem_insert, List.mem_cons] at hx ⊢
            tauto
          unfold hasPathFuel at hle ⊢
          simp only [List.length_cons] at hle
          have hmul := Nat.mul_le_mul_right (edges.length + 1) hcard
          omega
        · rw [if_neg hvis]
          refine ih _ _ ?_
          have hsub : ((((outTargets edges edge_type current).reverse ++
                rest).toFinset : Finset String) ∪
                (edges.map Edge.target_id).toFinset) \ insert current visited ⊆
              (((((current :: rest).toFinset : Finset String) ∪
                (edges.map Edge.target_id).toFinset) \ visited).erase current) := by
            intro x hx
            simp only [Finset.mem_sdiff, Finset.mem_union, List.mem_toFinset,
              List.mem_append, List.mem_reverse, Finset.mem_insert,
              Finset.mem_erase, List.toFinset_cons, List.mem_cons,
              not_or] at hx ⊢
            obtain ⟨hx1, hx2, hx3⟩ := hx
            refine ⟨hx2, ?_, hx3⟩
            rcases hx1 with (h1 | h1) | h1
            · exact Or.inr (List.mem_map.mp
                (mem_targets_of_mem_outTargets h1) |>.elim
                  fun e he => List.mem_map.mpr ⟨e, he.1, he.2⟩)
            · exact Or.inl (Or.inr h1)
            · exact Or.inr h1
          have hmemA : current ∈ ((((current :: rest).toFinset : Finset String) ∪
              (edges.map Edge.target_id).toFinset) \ visited) := by
            simp only [Finset.mem_sdiff, Finset.mem_union, List.mem_toFinset,
              List.toFinset_cons, Finset.mem_insert, List.mem_cons]
            exact ⟨by tauto, hvis⟩
          have hcard := Finset.card_le_card hsub
          rw [Finset.card_erase_of_mem hmemA] at hcard
          have hpos : 0 < ((((current :: rest).toFinset : Finset String) ∪
              (edges.map Edge.target_id).toFinset) \ visited).card :=
            Finset.card_pos.mpr ⟨current, hmemA⟩
          have hlen := length_outTargets_le edges edge_type current
          unfold hasPathFuel at hle ⊢
          simp only [List.length_cons, List.length_append, List.length_reverse] at hle ⊢
          set cB := ((((outTargets edges edge_type current).reverse ++
              rest).toFinset : Finset String) ∪
              (edges.map Edge.target_id).toFinset) \ insert current visited
            with hcBdef
          set cA := ((((current :: rest).toFinset : Finset String) ∪
              (edges.map Edge.target_id).toFinset) \ visited) with hcAdef
          have hBA : cB.card + 1 ≤ cA.card := by omega
          have hmul : (cB.card + 1) * (edges.length + 1) ≤
              cA.card * (edges.length + 1) :=
            Nat.mul_le_mul_right _ hBA
          have hexp : (cB.card + 1) * (edges.length + 1) =
              cB.card * (edges.length + 1) + (edges.length + 1) := by ring
          omega

/-- Specification of `_has_path`: it answers `true` exactly when the edge
table is nonempty *and* the target is reachable from the start (on an empty
edge table it answers `false` even for `from_id = to_id`, where the trivial
path exists). -/
theorem hasPath_eq_true_iff (db : DB) (from_id to_id : String)
    (edge_type : EdgeType) :
    db.hasPath from_id to_id edge_type = true ↔
      db.edges ≠ [] ∧ Reaches db.edges edge_type from_id to_id := by
  unfold DB.hasPath
  by_cases hemp : db.edges.isEmpty
  · have : db.edges = [] := List.isEmpty_iff.mp hemp
    simp [hemp, this]
  · rw [if_neg hemp]
    have hne : db.edges ≠ [] := by simpa [List.isEmpty_iff] using hemp
    have hsome := hasPathLoop_isSome db.edges edge_type to_id
      (hasPathFuel db.edges [from_id] ∅) [from_id] ∅ (le_refl _)
    obtain ⟨b, hb⟩ := Option.isSome_iff_exists.mp hsome
    rw [hb]
    constructor
    · intro h
      simp only [Option.getD_some] at h
      subst h
      obtain ⟨s, hs, hr⟩ := hasPathLoop_sound db.edges edge_type to_id _ _ _ hb
      simp only [List.mem_singleton] at hs
      exact ⟨hne, hs ▸ hr⟩
    · rintro ⟨-, hr⟩
      cases b with
      | false =>
        exfalso
        refine hasPathLoop_complete db.edges edge_type to_id _ _ _ ?_ hb
          from_id (Or.inl (List.mem_singleton_self _)) hr
        intro v hv
        exact absurd hv (Finset.not_mem_empty v)
      | true => simp

/-- With at least one stored edge, `_has_path(a, a, t)` is `true`: the first
popped stack element is the start, which already equals the target. -/
theorem hasPath_self (db : DB) (a : String) (edge_type : EdgeType)
    (h : ¬ db.edges = []) : db.hasPath a a edge_type = true :=
  (hasPath_eq_true_iff db a a edge_type).mpr ⟨h, .refl a⟩

/-! ## Generic list lemmas -/

theorem filter_filter_self {α : Type} (p : α → Bool) (l : List α) :
    (l.filter p).filter p = l.filter p := by
  induction l with
  | nil => rfl
  | cons a l ih => by_cases h : p a <;> simp [List.filter_cons, h, ih]

theorem find?_filter_not_append {α : Type} (p q : α → Bool) (l tail : List α)
    (hpq : ∀ a, q a = true → p a = false) :
    ((l.filter q) ++ tail).find? p = tail.find? p := by
  induction l with
  | nil => rfl
  | cons a l ih =>
    by_cases h : q a
    · rw [List.filter_cons_of_pos h, List.cons_append, List.find?_cons,
        hpq a h, ih]
    · rw [List.filter_cons_of_neg (by simpa using h), ih]

theorem rerank_foldl_eq_filterMap (nodes : List GraphNode) :
    ∀ (items : List RerankItem) (acc : List GraphNode),
      items.foldl (fun reranked_nodes item =>
        if h : item.index < nodes.length then
          reranked_nodes ++ [nodes[item.index]]
        else reranked_nodes) acc =
      acc ++ items.filterMap (fun item => nodes[item.index]?) := by
  intro items
  induction items with
  | nil => intro acc; simp
  | cons a items ih =>
    intro acc
    rw [List.foldl_cons, ih]
    by_cases h : a.index < nodes.length
    · rw [dif_pos h, List.filterMap_cons,
        List.getElem?_eq_getElem h]
      simp
    · rw [dif_neg h, List.filterMap_cons,
        List.getElem?_eq_none (le_of_not_lt h)]

theorem sumValues_countInc {α : Type} [DecidableEq α] (m : List (α × Nat))
    (k : α) : sumValues (countInc m k) = sumValues m + 1 := by
  induction m with
  | nil => rfl
  | cons a m ih =>
    obtain ⟨k', v⟩ := a
    by_cases h : k' = k <;> simp [countInc, h, sumValues] at ih ⊢ <;> omega

theorem sumValues_count_foldl {α β : Type} [DecidableEq β] (f : α → β)
    (l : List α) :
    ∀ m : List (β × Nat),
      sumValues (l.foldl (fun counts x => countInc counts (f x)) m) =
        sumValues m + l.length := by
  induction l with
  | nil => simp
  | cons a l ih =>
    intro m
    rw [List.foldl_cons, ih, sumValues_countInc, List.length_cons]
    omega

theorem length_event_note_split (l : List GraphNode) :
    (l.filterMap (fun n =>
      match n with
      | GraphNode.event e => some e
      | GraphNode.note _ => none)).length +
    (l.filterMap (fun n =>
      match n with
      | GraphNode.note m => some m
      | GraphNode.event _ => none)).length = l.length := by
  induction l with
  | nil => rfl
  | cons n l ih =>
    cases n <;> simp [List.filterMap_cons] <;> omega

/-! ## Store-level helper lemmas -/

/-- A stored node found by `get_node` carries the looked-up id. -/
theorem get_node_id {db : DB} {node_id : String} {n : GraphNode}
    (h : db.get_node node_id = some n) : n.id = node_id := by
  have := List.find?_some h
  simpa using this

/-- After `update_node`-style delete-then-reinsert, the reinserted node is
what `get_node` finds. -/
theorem get_node_delete_add (db : DB) (node_id : String) (n : GraphNode)
    (hid : n.id = node_id) :
    ((db.delete_node node_id).add_node n).get_node node_id = some n := by
  unfold DB.get_node DB.add_node DB.delete_node
  rw [find?_filter_not_append]
  · simp [List.find?_cons, hid]
  · intro a ha
    simp only [decide_eq_true_eq] at ha
    simpa using ha

/-- Membership in a `get_edges` query filtered by target id (nonempty) and
edge type. -/
theorem mem_get_edges_target {db : DB} {node_id : String} {t : EdgeType}
    {e : Edge} (hne : ¬ node_id = "") :
    e ∈ db.get_edges none (some node_id) (some t) ↔
      e ∈ db.edges ∧ e.target_id = node_id ∧ e.edge_type = t := by
  unfold DB.get_edges DB.strTruthy
  rw [if_pos (by simp [hne])]
  simp [List.mem_filter, hne, and_assoc]

/-- `get_neighbors` in the `incoming` direction, unfolded. -/
theorem get_neighbors_incoming (db : DB) (node_id : String)
    (edge_type : Option EdgeType) :
    db.get_neighbors node_id edge_type "incoming" =
      ((db.get_edges none (some node_id) edge_type).map
        Edge.source_id).dedup.filterMap db.get_node := by
  unfold DB.get_neighbors
  rw [if_neg (by decide), if_pos (by decide)]
  simp

/-- The blocking filter of `get_event_execution_context` returns `none`
exactly on nodes that are not events with status ≠ DONE. -/
theorem blockFn_eq_none (n : GraphNode) :
    (match n with
     | GraphNode.event e => if ¬ e.status = .done then some e else none
     | GraphNode.note _ => none) = none ↔
      ∀ x : Event, n = .event x → x.status = .done := by
  cases n with
  | event e => by_cases h : e.status = .done <;> simp [h]
  | note m => simp

/-- `get_predecessors`, unfolded to its edge scan. -/
theorem get_predecessors_eq (db : DB) (node_id : String)
    (edge_type : Option EdgeType) :
    db.get_predecessors node_id edge_type =
      ((db.get_edges none (some node_id) edge_type).map
        Edge.source_id).dedup.filterMap db.get_node := by
  unfold DB.get_predecessors
  exact get_neighbors_incoming db node_id edge_type

/-! ## The claims -/

/-- C7: `delete_edge` and `delete_node` are idempotent — a second call on the
same key leaves the store in the same state as the first (and, the operations
being total, never errors). -/
theorem C7_delete_idempotent (db : DB) (source_id target_id : String)
    (edge_type : EdgeType) (node_id : String) :
    (db.delete_edge source_id target_id edge_type).delete_edge source_id
        target_id edge_type = db.delete_edge source_id target_id edge_type ∧
    (db.delete_node node_id).delete_node node_id = db.delete_node node_id := by
  constructor
  · unfold DB.delete_edge
    simp [filter_filter_self]
  · unfold DB.delete_node
    simp [filter_filter_self]

/-- C10: in every store state, `get_stats` satisfies
`total_nodes = total_events + total_notes`, the event-status counts sum to
`total_events`, and the edge-type counts sum to `total_edges` (every stored
record decodes to exactly one of the two node variants). -/
theorem C10_stats_consistent (db : DB) :
    (MemoryGraph.get_stats db).total_nodes =
      (MemoryGraph.get_stats db).total_events +
        (MemoryGraph.get_stats db).total_notes ∧
    sumValues (MemoryGraph.get_stats db).event_status_counts =
      (MemoryGraph.get_stats db).total_events ∧
    sumValues (MemoryGraph.get_stats db).edge_type_counts =
      (MemoryGraph.get_stats db).total_edges := by
  unfold MemoryGraph.get_stats
  refine ⟨(length_event_note_split _).symm, ?_, ?_⟩
  · rw [sumValues_count_foldl Event.status]
    simp [sumValues]
  · rw [sumValues_count_foldl Edge.edge_type]
    simp [sumValues]

/-- C2 (failing-input evaluation): on the store holding the single event `A`
and no edges, `add_edge(A, A, DEPENDS_ON)` is *accepted* and persisted — the
empty-edge-table early return of `_has_path` skips the trivial
target-reaches-source check — so the persisted DEPENDS_ON subgraph contains a
cycle (a one-edge path from `A` back to `A`), violating invariant I2. -/
theorem C2_bug_selfloop_accepted :
    singleEventDB.add_edge selfLoopEdge = .ok selfLoopDB ∧
    selfLoopEdge ∈ selfLoopDB.edges ∧
    selfLoopEdge.edge_type = .depends_on ∧
    selfLoopEdge.source_id = selfLoopEdge.target_id ∧
    Reaches selfLoopDB.edges .depends_on "A" "A" := by
  refine ⟨rfl, by decide, rfl, rfl, .step ?_ (.refl "A")⟩
  decide

/-- C9 (counterexample): a DEPENDS_ON self-loop is *not* always rejected with
CyclicDependency — on a store whose edge table is empty it is accepted,
because `_has_path` returns `false` outright before comparing the start to
the target. -/
theorem C9_counterexample :
    ¬ singleEventDB.add_edge selfLoopEdge = .error .cyclicDependency := by
  intro h
  rw [show singleEventDB.add_edge selfLoopEdge = Except.ok selfLoopDB from rfl]
    at h
  exact Except.noConfusion h

/-- C9 (amended): for an existing node `A`, a self-loop of any matrix-allowed
type other than DEPENDS_ON is accepted and persisted, and an Event self-loop
of type DEPENDS_ON is rejected with CyclicDependency whenever the edge table
is nonempty (with an empty edge table it is instead persisted, see the
counterexample). -/
theorem C9_amended :
    (∀ (db : DB) (a : String) (node : GraphNode) (e : Edge),
      db.get_node a = some node → e.source_id = a → e.target_id = a →
      e.edge_type ∈ VALID_EDGE_TYPES (node.type, node.type) →
      ¬ e.edge_type = .depends_on →
      db.add_edge e = .ok { db with edges := db.edges ++ [e] }) ∧
    (∀ (db : DB) (a : String) (node : GraphNode) (e : Edge),
      db.get_node a = some node → e.source_id = a → e.target_id = a →
      node.type = .event → e.edge_type = .depends_on → ¬ db.edges = [] →
      db.add_edge e = .error .cyclicDependency) := by
  constructor
  · intro db a node e hget hs ht hmem hnd
    have hval : validEdge node node e.edge_type = true := by
      unfold validEdge
      simpa using hmem
    simp [DB.add_edge, hs, ht, hget, hval, hnd]
  · intro db a node e hget hs ht hevk hd hne
    have hval : validEdge node node .depends_on = true := by
      unfold validEdge
      rw [hevk]
      decide
    simp [DB.add_edge, hs, ht, hget, hval, hd, hasPath_self db a .depends_on hne]

/-- C9 (witness): on a store with events and one unrelated edge, a PART_OF
self-loop on `A` is persisted and a DEPENDS_ON self-loop on `A` is rejected
with CyclicDependency. -/
theorem C9_amended_witness :
    oneEdgeDB.add_edge partOfLoopEdge =
      .ok { nodes := [.event eventA], edges := [edgeAB, partOfLoopEdge] } ∧
    oneEdgeDB.add_edge selfLoopEdge = .error .cyclicDependency :=
  ⟨C9_amended.1 oneEdgeDB "A" (.event eventA) partOfLoopEdge rfl rfl rfl
      (by decide) (by decide),
   C9_amended.2 oneEdgeDB "A" (.event eventA) selfLoopEdge rfl rfl rfl rfl rfl
      (by decide)⟩

/-- C8 (counterexample): the claim's characterization "`_has_path` returns
true iff the target is reachable" fails on an empty edge table with
`from_id = to_id`: the trivial path makes `A` reachable from `A`, yet the
empty-table early return yields `false`. -/
theorem C8_counterexample :
    ¬ (singleEventDB.hasPath "A" "A" .depends_on = true ↔
        Reaches singleEventDB.edges .depends_on "A" "A") := by
  intro h
  have htrue := h.mpr (.refl "A")
  rw [show singleEventDB.hasPath "A" "A" .depends_on = false from rfl] at htrue
  exact Bool.false_ne_true htrue

/-- C8 (amended): the cycle-check loop terminates within the explicit fuel
bound `hasPathFuel` (the visited set grows on each expansion and is bounded by
the number of distinct node ids) for every finite edge set; `_has_path`
returns true iff the edge table is nonempty *and* the target is reachable
from the start along DEPENDS_ON out-edges; and for a DEPENDS_ON edge between
existing, validly-typed endpoints this is exactly the condition under which
`add_edge` rejects with CyclicDependency. -/
theorem C8_amended :
    (∀ (edges : List Edge) (edge_type : EdgeType) (from_id to_id : String),
      (hasPathLoop edges edge_type to_id (hasPathFuel edges [from_id] ∅)
        [from_id] ∅).isSome) ∧
    (∀ (db : DB) (from_id to_id : String),
      db.hasPath from_id to_id .depends_on = true ↔
        db.edges ≠ [] ∧ Reaches db.edges .depends_on from_id to_id) ∧
    (∀ (db : DB) (e : Edge) (s t : GraphNode),
      db.get_node e.source_id = some s → db.get_node e.target_id = some t →
      e.edge_type = .depends_on →
      EdgeType.depends_on ∈ VALID_EDGE_TYPES (s.type, t.type) →
      (db.add_edge e = .error .cyclicDependency ↔
        db.hasPath e.target_id e.source_id .depends_on = true)) := by
  refine ⟨?_, ?_, ?_⟩
  · intro edges edge_type from_id to_id
    exact hasPathLoop_isSome edges edge_type to_id _ [from_id] ∅ (le_refl _)
  · intro db from_id to_id
    exact hasPath_eq_true_iff db from_id to_id .depends_on
  · intro db e s t hs ht hd hmem
    have hval : validEdge s t .depends_on = true := by
      unfold validEdge
      simpa using hmem
    by_cases hp : db.hasPath e.target_id e.source_id .depends_on = true
    · simp [DB.add_edge, hs, ht, hval, hd, hp]
    · simp [DB.add_edge, hs, ht, hval, hd, hp]

/-- C8 (witness): on the store with edge `A DEPENDS_ON B`, adding
`B DEPENDS_ON A` is rejected with CyclicDependency exactly because `B` is
reachable from `A`. -/
theorem C8_amended_witness :
    scenarioDB.add_edge edgeBA = .error .cyclicDependency ↔
      scenarioDB.hasPath "A" "B" .depends_on = true :=
  C8_amended.2.2 scenarioDB edgeBA (.event eventB) (.event eventA) rfl rfl rfl
    (by decide)

/-- C5 (counterexample): with a node whose id is the empty string,
`delete_node` removes the node, yet `get_node_edges` on that id is *not*
empty — the empty string is falsy in Python, so the edge query drops its
filter conditions and returns the entire edge table. -/
theorem C5_counterexample :
    emptyIdDB.get_node "" = some (.event { eventA with id := "" }) ∧
    ¬ MemoryGraph.get_node_edges (emptyIdDB.delete_node "") "" none "both"
        = [] := by
  constructor
  · rfl
  · decide

/-- C5 (amended): for every node id other than the empty string, after
`delete_node` the node record is gone and `get_node_edges` on that id is
empty for every edge-type filter and direction; and deleting an absent id is
not an error — it leaves the node table unchanged. -/
theorem C5_amended (db : DB) (node_id : String) (edge_type : Option EdgeType)
    (direction : String) (h : ¬ node_id = "") :
    MemoryGraph.get_node_edges (db.delete_node node_id) node_id edge_type
        direction = [] ∧
    (db.delete_node node_id).get_node node_id = none ∧
    (db.get_node node_id = none →
      (db.delete_node node_id).nodes = db.nodes) := by
  refine ⟨?_, ?_, ?_⟩
  · have hsrc : (db.delete_node node_id).get_edges (some node_id) none
        edge_type = [] := by
      unfold DB.get_edges DB.delete_node DB.strTruthy
      rw [if_pos (by simp [h])]
      rw [List.filter_eq_nil_iff]
      intro e he
      have hmem := (List.mem_filter.mp he).2
      simp only [decide_eq_true_eq, not_or] at hmem
      simp [h, hmem.1]
    have htgt : (db.delete_node node_id).get_edges none (some node_id)
        edge_type = [] := by
      unfold DB.get_edges DB.delete_node DB.strTruthy
      rw [if_pos (by simp [h])]
      rw [List.filter_eq_nil_iff]
      intro e he
      have hmem := (List.mem_filter.mp he).2
      simp only [decide_eq_true_eq, not_or] at hmem
      simp [h, hmem.2]
    unfold MemoryGraph.get_node_edges
    rw [hsrc, htgt]
    simp
  · unfold DB.get_node DB.delete_node
    rw [List.find?_eq_none]
    intro x hx
    have hmem := (List.mem_filter.mp hx).2
    simpa using hmem
  · intro hnone
    unfold DB.get_node at hnone
    unfold DB.delete_node
    rw [List.filter_eq_self]
    intro a ha
    have := List.find?_eq_none.mp hnone a ha
    simpa using this

/-- C5 (witness): deleting event `A` from the scenario store removes its
record and each of its incident edges. -/
theorem C5_amended_witness :
    MemoryGraph.get_node_edges (scenarioDB.delete_node "A") "A" none "both"
        = [] ∧
    (scenarioDB.delete_node "A").get_node "A" = none :=
  ⟨(C5_amended scenarioDB "A" none "both" (by decide)).1,
   (C5_amended scenarioDB "A" none "both" (by decide)).2.1⟩

/-- C3: for existing endpoints, `add_edge` persists the edge whenever its
type is in the §3 validity matrix for the endpoint kinds (provided, for
DEPENDS_ON, that the source is not reachable from the target), and fails
with InvalidEdgeType — persisting nothing — whenever it is not. -/
theorem C3_edge_matrix (db : DB) (e : Edge) (s t : GraphNode)
    (hs : db.get_node e.source_id = some s)
    (ht : db.get_node e.target_id = some t) :
    (e.edge_type ∈ VALID_EDGE_TYPES (s.type, t.type) →
      (e.edge_type = .depends_on →
        ¬ Reaches db.edges .depends_on e.target_id e.source_id) →
      db.add_edge e = .ok { db with edges := db.edges ++ [e] }) ∧
    (e.edge_type ∉ VALID_EDGE_TYPES (s.type, t.type) →
      db.add_edge e = .error .invalidEdgeType) := by
  constructor
  · intro hmem hnoc
    have hval : validEdge s t e.edge_type = true := by
      unfold validEdge
      simpa using hmem
    by_cases hd : e.edge_type = .depends_on
    · have hp : db.hasPath e.target_id e.source_id .depends_on = false := by
        by_contra hND
        have htrue : db.hasPath e.target_id e.source_id .depends_on = true := by
          revert hND
          cases db.hasPath e.target_id e.source_id .depends_on <;> simp
        exact hnoc hd ((hasPath_eq_true_iff db _ _ .depends_on).mp htrue).2
      rw [hd] at hval
      simp [DB.add_edge, hs, ht, hval, hd, hp]
    · simp [DB.add_edge, hs, ht, hval, hd]
  · intro hnot
    have hval : validEdge s t e.edge_type = false := by
      unfold validEdge
      simpa using hnot
    simp [DB.add_edge, hs, ht, hval]

/-- C3 (witness): a REFERENCES edge from event `A` to note `N` is accepted
and persisted. -/
theorem C3_edge_matrix_witness :
    eventNoteDB.add_edge refEdgeAN =
      .ok { nodes := [.event eventA, .note noteN], edges := [refEdgeAN] } :=
  (C3_edge_matrix eventNoteDB refEdgeAN (.event eventA) (.note noteN)
      rfl rfl).1 (by decide) (fun hcontr => absurd hcontr (by decide))

/-- C4: `search` embeds the query, over-fetches `limit * 2` candidates by
vector distance, and then: with `rerank` on and more than one candidate it
returns, in the reranker's index order, each returned in-bounds index's
candidate (out-of-bounds indices are dropped), of length at most `limit`
provided the reranker honors its `top_n` contract; otherwise it returns the
first `limit` candidates in vector-distance order. -/
theorem C4_search_pipeline (embed : String → Emb)
    (search_by_vector : Emb → Nat → Option NodeType → List (GraphNode × Int))
    (rerank_fn : String → List String → Nat → List RerankItem)
    (query : String) (limit : Nat) (node_type : Option NodeType) :
    (MemoryGraph.search embed search_by_vector rerank_fn query limit node_type
        true =
      (if ((search_by_vector (embed query) (limit * 2) node_type).map
            Prod.fst).length > 1 then
        (rerank_fn query
            (((search_by_vector (embed query) (limit * 2) node_type).map
              Prod.fst).map GraphNode.content) limit).filterMap
          (fun item =>
            ((search_by_vector (embed query) (limit * 2) node_type).map
              Prod.fst)[item.index]?)
      else
        ((search_by_vector (embed query) (limit * 2) node_type).map
          Prod.fst).take limit)) ∧
    (MemoryGraph.search embed search_by_vector rerank_fn query limit node_type
        false =
      ((search_by_vector (embed query) (limit * 2) node_type).map
        Prod.fst).take limit) ∧
    ((rerank_fn query
        (((search_by_vector (embed query) (limit * 2) node_type).map
          Prod.fst).map GraphNode.content) limit).length ≤ limit →
      (MemoryGraph.search embed search_by_vector rerank_fn query limit
        node_type true).length ≤ limit) := by
  have h1 : MemoryGraph.search embed search_by_vector rerank_fn query limit
      node_type true =
      (if ((search_by_vector (embed query) (limit * 2) node_type).map
            Prod.fst).length > 1 then
        (rerank_fn query
            (((search_by_vector (embed query) (limit * 2) node_type).map
              Prod.fst).map GraphNode.content) limit).filterMap
          (fun item =>
            ((search_by_vector (embed query) (limit * 2) node_type).map
              Prod.fst)[item.index]?)
      else
        ((search_by_vector (embed query) (limit * 2) node_type).map
          Prod.fst).take limit) := by
    unfold MemoryGraph.search
    by_cases hemp : (search_by_vector (embed query) (limit * 2)
        node_type).isEmpty
    · have hnil : search_by_vector (embed query) (limit * 2) node_type = [] :=
        List.isEmpty_iff.mp hemp
      simp [hemp, hnil]
    · rw [if_neg hemp]
      by_cases hlen : ((search_by_vector (embed query) (limit * 2)
          node_type).map Prod.fst).length > 1
      · rw [if_pos (by simpa using hlen), if_pos hlen]
        dsimp only
        rw [rerank_foldl_eq_filterMap]
        exact List.nil_append _
      · rw [if_neg (by simpa using hlen), if_neg hlen]
  refine ⟨h1, ?_, ?_⟩
  · unfold MemoryGraph.search
    by_cases hemp : (search_by_vector (embed query) (limit * 2)
        node_type).isEmpty
    · have hnil : search_by_vector (embed query) (limit * 2) node_type = [] :=
        List.isEmpty_iff.mp hemp
      simp [hemp, hnil]
    · rw [if_neg hemp]
      rw [if_neg (by simp)]
  · intro hcontract
    rw [h1]
    by_cases hlen : ((search_by_vector (embed query) (limit * 2)
        node_type).map Prod.fst).length > 1
    · rw [if_pos hlen]
      exact le_trans (List.length_filterMap_le _ _) hcontract
    · rw [if_neg hlen]
      exact List.length_take_le _ _

/-- C4 (witness): with two candidates, `limit = 1` and a reranker returning
index `1`, `search` returns the second candidate only, of length within the
limit. -/
theorem C4_search_pipeline_witness :
    MemoryGraph.search (fun _ => [])
        (fun _ _ _ => [(.event eventA, 0), (.event eventB, 0)])
        (fun _ _ _ => [{ index := 1 }]) "q" 1 none true = [.event eventB] ∧
    (MemoryGraph.search (fun _ => [])
        (fun _ _ _ => [(.event eventA, 0), (.event eventB, 0)])
        (fun _ _ _ => [{ index := 1 }]) "q" 1 none true).length ≤ 1 :=
  ⟨by rfl,
   (C4_search_pipeline (fun _ => [])
      (fun _ _ _ => [(.event eventA, 0), (.event eventB, 0)])
      (fun _ _ _ => [{ index := 1 }]) "q" 1 none).2.2 (by decide)⟩

/-- C6 (counterexample): updating event `A` (content `x`, no stored embedding,
`updated_at = 0`) with an `EventUpdate` that re-supplies the identical content
`x` yields a stored node whose content is unchanged, yet whose embedding has
been recomputed (`none` becomes the freshly embedded vector) and whose
`updated_at` — a field the request cannot supply — has changed; so "only
supplied fields are overwritten, and the embedding is recomputed only if
content changed" fails as stated. -/
theorem C6_counterexample :
    ({ eventA with content := "x" } : Event).updated_at = 0 ∧
    ({ eventA with content := "x" } : Event).embedding = none ∧
    resupplyUpdate.content = some "x" ∧
    resupplyUpdate.metadata = none ∧ resupplyUpdate.status = none ∧
    resupplyUpdate.due_date = none ∧ resupplyUpdate.priority = none ∧
    (MemoryGraph.update_event staleDB (fun _ => [7]) 1 "A"
        resupplyUpdate).1.map Event.content = some "x" ∧
    (MemoryGraph.update_event staleDB (fun _ => [7]) 1 "A"
        resupplyUpdate).1.map Event.updated_at = some 1 ∧
    (MemoryGraph.update_event staleDB (fun _ => [7]) 1 "A"
        resupplyUpdate).1.map Event.embedding = some (some [7]) := by
  decide

/-- C6 (amended): `update_event` / `update_note` return `absent` (leaving the
store untouched) whenever the id does not resolve to a node of the expected
kind; otherwise they overwrite exactly the supplied fields — plus
`updated_at`, which is always refreshed, and the embedding, which is
regenerated whenever `content` (for notes: `content` or `title`) is supplied,
even if the supplied text equals the stored one — keep every other field, and
store the result (via delete-then-reinsert, which also drops the node's
incident edges). -/
theorem C6_amended :
    (∀ (db : DB) (embed : String → Emb) (now : Nat) (event_id : String)
        (data : EventUpdate),
      (∀ ev : Event, ¬ db.get_node event_id = some (.event ev)) →
      MemoryGraph.update_event db embed now event_id data = (none, db)) ∧
    (∀ (db : DB) (embed : String → Emb) (now : Nat) (event_id : String)
        (data : EventUpdate) (ev : Event),
      db.get_node event_id = some (.event ev) →
      MemoryGraph.update_event db embed now event_id data =
        (some (applyEventUpdate ev embed now data),
         (db.delete_node event_id).add_node
           (.event (applyEventUpdate ev embed now data))) ∧
      ((db.delete_node event_id).add_node
          (.event (applyEventUpdate ev embed now data))).get_node event_id =
        some (.event (applyEventUpdate ev embed now data))) ∧
    (∀ (db : DB) (embed : String → Emb) (now : Nat) (note_id : String)
        (data : NoteUpdate),
      (∀ nt : Note, ¬ db.get_node note_id = some (.note nt)) →
      MemoryGraph.update_note db embed now note_id data = (none, db)) ∧
    (∀ (db : DB) (embed : String → Emb) (now : Nat) (note_id : String)
        (data : NoteUpdate) (nt : Note),
      db.get_node note_id = some (.note nt) →
      MemoryGraph.update_note db embed now note_id data =
        (some (applyNoteUpdate nt embed now data),
         (db.delete_node note_id).add_node
           (.note (applyNoteUpdate nt embed now data))) ∧
      ((db.delete_node note_id).add_node
          (.note (applyNoteUpdate nt embed now data))).get_node note_id =
        some (.note (applyNoteUpdate nt embed now data))) := by
  refine ⟨?_, ?_, ?_, ?_⟩
  · intro db embed now event_id data hko
    cases hn : db.get_node event_id with
    | none => simp [MemoryGraph.update_event, hn]
    | some n =>
      cases n with
      | event e => exact absurd hn (hko e)
      | note m => simp [MemoryGraph.update_event, hn]
  · intro db embed now event_id data ev hev
    have hid : ev.id = event_id := by
      have := get_node_id hev
      simpa [GraphNode.id] using this
    constructor
    · rcases data with ⟨c, m, s, d, p⟩
      cases c <;> cases m <;> cases s <;> cases d <;> cases p <;>
        simp [MemoryGraph.update_event, hev, applyEventUpdate, DB.update_node,
          DB.setUpdatedAt, GraphNode.id, hid]
    · exact get_node_delete_add db event_id _ (by simp [GraphNode.id, applyEventUpdate, hid])
  · intro db embed now note_id data hko
    cases hn : db.get_node note_id with
    | none => simp [MemoryGraph.update_note, hn]
    | some n =>
      cases n with
      | event e => simp [MemoryGraph.update_note, hn]
      | note m => exact absurd hn (hko m)
  · intro db embed now note_id data nt hnt
    have hid : nt.id = note_id := by
      have := get_node_id hnt
      simpa [GraphNode.id] using this
    constructor
    · rcases data with ⟨c, m, t, tg, sr⟩
      cases c <;> cases m <;> cases t <;> cases tg <;> cases sr <;>
        simp [MemoryGraph.update_note, hnt, applyNoteUpdate, DB.update_node,
          DB.setUpdatedAt, GraphNode.id, hid, noteEmbeddingText]
    · exact get_node_delete_add db note_id _ (by simp [GraphNode.id, applyNoteUpdate, hid])

/-- C6 (witness): the concrete resupply update stores exactly the field-level
result described by `applyEventUpdate`. -/
theorem C6_amended_witness :
    MemoryGraph.update_event staleDB (fun _ => [7]) 1 "A" resupplyUpdate =
      (some (applyEventUpdate { eventA with content := "x" } (fun _ => [7]) 1
        resupplyUpdate),
       (staleDB.delete_node "A").add_node
         (.event (applyEventUpdate { eventA with content := "x" }
           (fun _ => [7]) 1 resupplyUpdate))) :=
  (C6_amended.2.1 staleDB (fun _ => [7]) 1 "A" resupplyUpdate
    { eventA with content := "x" } rfl).1

/-- C1 (counterexample): after creating events `A`, `B` (both PENDING) and
adding the edge `A DEPENDS_ON B`, it is `A`'s context that has
`can_execute = true` (contradicting the claimed `false`): the code blocks the
edge's *target* on its *source*, so the blocked task is `B`.  Additionally,
the claimed iff fails for an event whose id is the empty string: no
DEPENDS_ON edge points at it, yet its context reports `can_execute = false`,
because the falsy id drops the target filter from the predecessor query. -/
theorem C1_counterexample :
    (((DB.mk [] []).add_node (.event eventA)).add_node (.event eventB)).add_edge
        edgeAB = .ok scenarioDB ∧
    eventB.status = .pending ∧
    (MemoryGraph.get_event_execution_context scenarioDB "A").map
        ExecutionContext.can_execute = some true ∧
    (MemoryGraph.get_event_execution_context emptyIdDB "").map
        ExecutionContext.can_execute = some false ∧
    (∀ e ∈ emptyIdDB.edges, ¬ (e.edge_type = .depends_on ∧ e.target_id = "")) := by
  refine ⟨rfl, rfl, by decide, by decide, by decide⟩

/-- C1 (amended): for every event with a nonempty id,
`get_event_execution_context` reports `can_execute = true` iff no node `X`
with a persisted DEPENDS_ON edge `X → E` resolves to an Event whose status is
other than DONE.  Scenario (direction corrected): with edge
`A DEPENDS_ON B` and `A` PENDING, *B*'s context has `can_execute = false`;
after `update_event` sets `A` to DONE, re-fetching `B`'s context yields
`can_execute = true`. -/
theorem C1_amended :
    (∀ (db : DB) (event_id : String) (ev : Event),
      MemoryGraph.get_event db event_id = some ev → ¬ event_id = "" →
      ∃ ctx, MemoryGraph.get_event_execution_context db event_id = some ctx ∧
        (ctx.can_execute = true ↔
          ¬ ∃ e ∈ db.edges, e.edge_type = .depends_on ∧
            e.target_id = event_id ∧
            ∃ x : Event, db.get_node e.source_id = some (.event x) ∧
              ¬ x.status = .done)) ∧
    ((MemoryGraph.get_event_execution_context scenarioDB "B").map
        ExecutionContext.can_execute = some false ∧
      (MemoryGraph.get_event_execution_context scenarioDB2 "B").map
        ExecutionContext.can_execute = some true) := by
  constructor
  · intro db event_id ev hev hne
    unfold MemoryGraph.get_event_execution_context
    rw [hev]
    refine ⟨_, rfl, ?_⟩
    simp only [decide_eq_true_eq]
    rw [List.length_eq_zero, List.filterMap_eq_nil_iff, get_predecessors_eq]
    constructor
    · rintro hall ⟨e, he, hty, htgt, x, hsrc, hst⟩
      have hmem : GraphNode.event x ∈
          ((db.get_edges none (some event_id) (some .depends_on)).map
            Edge.source_id).dedup.filterMap db.get_node :=
        List.mem_filterMap.mpr ⟨e.source_id,
          List.mem_dedup.mpr (List.mem_map.mpr ⟨e,
            (mem_get_edges_target hne).mpr ⟨he, htgt, hty⟩, rfl⟩), hsrc⟩
      have hb := hall _ hmem
      simp [hst] at hb
    · intro hno n hn
      obtain ⟨a, ha, hna⟩ := List.mem_filterMap.mp hn
      obtain ⟨e, he, rfl⟩ := List.mem_map.mp (List.mem_dedup.mp ha)
      obtain ⟨he', htgt, hty⟩ := (mem_get_edges_target hne).mp he
      cases n with
      | note m => simp
      | event x =>
        by_cases hst : x.status = .done
        · simp [hst]
        · exact absurd ⟨e, he', hty, htgt, x, hna, hst⟩ hno
  · exact ⟨by decide, by decide⟩

/-- C1 (witness): the general readiness iff, instantiated on the scenario
store at event `B`. -/
theorem C1_amended_witness :
    ∃ ctx, MemoryGraph.get_event_execution_context scenarioDB "B" = some ctx ∧
      (ctx.can_execute = true ↔
        ¬ ∃ e ∈ scenarioDB.edges, e.edge_type = .depends_on ∧
          e.target_id = "B" ∧
          ∃ x : Event, scenarioDB.get_node e.source_id = some (.event x) ∧
            ¬ x.status = .done) :=
  C1_amended.1 scenarioDB "B" eventB rfl (by decide)

end MemoryAgent

